import Mathlib

/-!
Verification of the hybrid conversation Memory subsystem (Memory class of the
memory service module). The definitions below are a shallow embedding of the
Memory class: pure helpers (tokenizing, similarity scoring, JSON size
estimation, pruning) become Lean functions, and the stateful methods become
explicit state transformers over a MemState record that also emit the list of
durable-store writes they perform. The relevance scorer used by pruning and
retrieval is injected in the source (an embedding model capability), so the
state-level operations are parameterized by an arbitrary score function into a
linear order; the concrete scorers (lexical word overlap and vector cosine)
are embedded over the reals.

JavaScript numbers are modelled as follows: byte counts and timestamps are
natural numbers; similarity scores are real numbers (division by zero is the
Lean convention x / 0 = 0; the lexical scorer never divides by zero because a
JS split always yields at least one piece).
-/

namespace Agent284

/-- A stored conversation message: role, text and epoch-millisecond timestamp. -/
structure Message where
  role : String
  text : String
  timestamp : Nat
deriving DecidableEq

/-- A message as passed to addMessage: the timestamp may be absent (or a falsy 0),
in which case addMessage assigns the current time. -/
structure IncomingMessage where
  role : String
  text : String
  timestamp : Option Nat
deriving DecidableEq

/-- A pending-operation marker queued by queueOperation: operation type, a numeric
payload (the messageId timestamp for add, the removed count for prune) and the
time it was queued. The marker carries no persisted data. -/
structure PendingOp where
  opType : String
  payload : Nat
  timestamp : Nat
deriving DecidableEq

/-- One durable upsert performed by saveToMongoDB: the session key and the full
buffer snapshot written. -/
structure DurableWrite where
  sessionId : String
  messages : List Message
deriving DecidableEq

/-- The mutable state of one Memory instance (the fields of the Memory class that
the claims concern; the debounce timer handle is modelled by an armed flag). -/
structure MemState where
  maxSizeBytes : Nat
  maxMessageCount : Nat
  messages : List Message
  sessionId : String
  pendingOperations : List PendingOp
  batchTimerArmed : Bool
  batchSaveDelay : Nat
  maxBatchSize : Nat
  isSaving : Bool
  isMongoConnected : Bool
deriving DecidableEq

/-- What the durable store holds for a session id: no document, a document whose
messages field is not an array (the malformed case loadFromMongoDB guards), or a
proper snapshot. -/
inductive StoreDoc
  | absent
  | malformed
  | snapshot (messages : List Message)
deriving DecidableEq

/-- A JS regex word character for the pattern backslash-W: A-Z, a-z, 0-9 or the
underscore (source: basicTextSimilarity splits on runs of non-word characters). -/
def isWordChar (c : Char) : Bool :=
  (97 ≤ c.toNat && c.toNat ≤ 122) || (65 ≤ c.toNat && c.toNat ≤ 90) ||
    (48 ≤ c.toNat && c.toNat ≤ 57) || (c.toNat == 95)

/-- Worker for the JS split on runs of non-word characters. The second argument is
none while scanning a separator run (a piece boundary has been emitted) and some
acc while building the current piece; JS split emits empty pieces at the ends, so
the result is never empty. -/
def splitAux : List Char → Option (List Char) → List String
  | [], none => [String.mk []]
  | [], some acc => [String.mk acc.reverse]
  | c :: cs, none =>
    if isWordChar c then splitAux cs (some [c]) else splitAux cs none
  | c :: cs, some acc =>
    if isWordChar c then splitAux cs (some (c :: acc))
    else String.mk acc.reverse :: splitAux cs none

/-- JS String.prototype.toLowerCase restricted to ASCII, which is all the word
characters the tokenizer can keep. -/
def jsToLower (s : String) : String :=
  String.mk (s.data.map Char.toLower)

/-- JS text.split on the regex of one-or-more non-word characters. -/
def jsSplitNonWord (s : String) : List String :=
  splitAux s.data (some [])

/-- The set of unique tokens of a text: lower-case, split on non-word runs, dedupe
(source: new Set(text.toLowerCase().split(...)) in basicTextSimilarity). -/
def wordSet (s : String) : Finset String :=
  (jsSplitNonWord (jsToLower s)).toFinset

/-- Memory basicTextSimilarity: size of the token-set intersection divided by the
square root of the product of the token-set sizes. -/
noncomputable def basicTextSimilarity (text1 text2 : String) : ℝ :=
  let words1 := wordSet text1
  let words2 := wordSet text2
  ((words1 ∩ words2).card : ℝ) / Real.sqrt (((words1.card * words2.card : Nat) : ℝ))

/-- Memory cosineSimilarity: 0 on mismatched lengths, otherwise the dot product
divided by the product of the magnitudes. -/
noncomputable def cosineSimilarity (vec1 vec2 : List ℝ) : ℝ :=
  if vec1.length ≠ vec2.length then 0
  else
    let dotProduct := (List.zipWith (fun a b => a * b) vec1 vec2).sum
    let mag1 := (vec1.map (fun x => x * x)).sum
    let mag2 := (vec2.map (fun x => x * x)).sum
    dotProduct / (Real.sqrt mag1 * Real.sqrt mag2)

/-- Memory calculateRelevanceScore: lexical similarity when no embedding model is
injected; otherwise embed both texts and take the cosine similarity, and if either
embedding call fails (throws, times out, or yields a malformed response) the
try-catch returns 0. The fallible embedding capability is a function into Except. -/
noncomputable def calculateRelevanceScore (embedModel : Option (String → Except Unit (List ℝ)))
    (messageText currentContext : String) : ℝ :=
  match embedModel with
  | none => basicTextSimilarity messageText currentContext
  | some embedContent =>
    match embedContent messageText, embedContent currentContext with
    | Except.ok v1, Except.ok v2 => cosineSimilarity v1 v2
    | _, _ => 0

/-- Lower-case hexadecimal digit, for JSON control-character escapes. -/
def hexDigit (n : Nat) : Char :=
  if n < 10 then Char.ofNat (48 + n) else Char.ofNat (87 + n % 16)

/-- Four lower-case hex digits, for JSON backslash-u escapes. -/
def hex4 (n : Nat) : String :=
  String.mk [hexDigit (n / 4096 % 16), hexDigit (n / 256 % 16), hexDigit (n / 16 % 16),
    hexDigit (n % 16)]

/-- How JSON.stringify renders one character inside a string literal. -/
def jsonEscapeChar (c : Char) : String :=
  if c = '"' then String.mk ['\\', '"']
  else if c = '\\' then String.mk ['\\', '\\']
  else if c = '\n' then String.mk ['\\', 'n']
  else if c = '\r' then String.mk ['\\', 'r']
  else if c = '\t' then String.mk ['\\', 't']
  else if c.toNat = 8 then String.mk ['\\', 'b']
  else if c.toNat = 12 then String.mk ['\\', 'f']
  else if c.toNat < 32 then String.mk ['\\', 'u'] ++ hex4 c.toNat
  else String.mk [c]

/-- JSON string-literal escaping of a whole string. -/
def jsonEscape (s : String) : String :=
  String.join (s.data.map jsonEscapeChar)

/-- JSON.stringify of a stored message object with fields role, text, timestamp. -/
def jsonStringifyMessage (m : Message) : String :=
  String.mk ['\x7b', '"'] ++ (String.mk ['r', 'o', 'l', 'e'] ++ String.mk ['"', ':', '"']) ++
    jsonEscape m.role ++
    String.mk ['"', ',', '"', 't', 'e', 'x', 't', '"', ':', '"'] ++ jsonEscape m.text ++
    String.mk ['"', ',', '"'] ++ String.mk ['t', 'i', 'm', 'e', 's', 't', 'a', 'm', 'p'] ++
    String.mk ['"', ':'] ++ toString m.timestamp ++ String.mk ['\x7d']

/-- Memory estimateMessageSize: UTF-8 byte length of the JSON rendering of the
message (TextEncoder().encode(JSON.stringify(message)).length). -/
def estimateMessageSize (m : Message) : Nat :=
  (jsonStringifyMessage m).utf8ByteSize

/-- The scored list prune builds: each message with its index and its relevance
score against the current context. The score function stands for the injected
calculateRelevanceScore capability. -/
def scoredList {α : Type*} (relScore : Message → String → α) (currentContext : String)
    (messages : List Message) : List (Nat × Message × α) :=
  messages.enum.map (fun p => (p.1, p.2, relScore p.2 currentContext))

/-- The scored list sorted ascending by score, least relevant first; a stable
sort, as the JS engine's Array.prototype.sort is. -/
def sortedScored {α : Type*} [LinearOrder α] (relScore : Message → String → α)
    (currentContext : String) (messages : List Message) : List (Nat × Message × α) :=
  (scoredList relScore currentContext messages).insertionSort (fun a b => a.2.2 ≤ b.2.2)

/-- The indices prune removes: the first length-minus-maxMessageCount entries of
the ascending-sorted scored list. -/
def removedIndices {α : Type*} [LinearOrder α] (relScore : Message → String → α)
    (maxMessageCount : Nat) (currentContext : String) (messages : List Message) : List Nat :=
  ((sortedScored relScore currentContext messages).take (messages.length - maxMessageCount)).map
    (fun p => p.1)

/-- The buffer transformation of Memory prune: unchanged when the length is within
maxMessageCount; otherwise keep, in original order, exactly the messages whose
index is not among the removed (least relevant) indices. -/
def pruneCore {α : Type*} [LinearOrder α] (relScore : Message → String → α)
    (maxMessageCount : Nat) (currentContext : String) (messages : List Message) : List Message :=
  if messages.length ≤ maxMessageCount then messages
  else
    ((messages.enum.filter
      (fun p => ! decide (p.1 ∈ removedIndices relScore maxMessageCount currentContext messages))).map
        (fun p => p.2))

/-- Memory saveToMongoDB, reduced to the upsert it performs: one full-snapshot
write keyed by the session id when the store is connected, nothing otherwise. -/
def saveToMongoDB (s : MemState) : List DurableWrite :=
  if s.isMongoConnected then [⟨s.sessionId, s.messages⟩] else []

/-- Memory processBatch. Returns unchanged when the single-writer lock is held or
no marker is pending; otherwise clears the marker queue, performs the save, and on
failure runs the catch block, whose re-queue statement copies the already-cleared
queue back onto itself (the saveOk flag selects the failure path). The isSaving
lock is taken and released inside the call, so it is false again on return. -/
def processBatch (saveOk : Bool) (s : MemState) : MemState × List DurableWrite :=
  if s.isSaving ∨ s.pendingOperations = [] then (s, [])
  else
    let s1 := { s with pendingOperations := [] }
    let writes := saveToMongoDB s1
    if saveOk then (s1, writes)
    else ({ s1 with pendingOperations := s1.pendingOperations }, writes)

/-- Memory scheduleBatchProcessing: clear any armed debounce timer; flush at once
when the queue has reached maxBatchSize, otherwise arm the timer. -/
def scheduleBatchProcessing (saveOk : Bool) (s : MemState) : MemState × List DurableWrite :=
  let s0 := { s with batchTimerArmed := false }
  if s0.maxBatchSize ≤ s0.pendingOperations.length then processBatch saveOk s0
  else ({ s0 with batchTimerArmed := true }, [])

/-- Memory queueOperation: skip when the store is not connected; otherwise append
a marker and schedule batch processing. -/
def queueOperation (saveOk : Bool) (opType : String) (payload now : Nat) (s : MemState) :
    MemState × List DurableWrite :=
  if ¬ s.isMongoConnected then (s, [])
  else
    scheduleBatchProcessing saveOk
      { s with pendingOperations := s.pendingOperations ++ [⟨opType, payload, now⟩] }

/-- Memory prune as a state transformer: early return when within the count cap,
otherwise replace the buffer with the pruned one and queue a prune marker carrying
the removed count. -/
def pruneS {α : Type*} [LinearOrder α] (relScore : Message → String → α) (saveOk : Bool)
    (currentContext : String) (now : Nat) (s : MemState) : MemState × List DurableWrite :=
  if s.messages.length ≤ s.maxMessageCount then (s, [])
  else
    queueOperation saveOk (String.mk ['p', 'r', 'u', 'n', 'e'])
      (s.messages.length - s.maxMessageCount) now
      { s with messages := pruneCore relScore s.maxMessageCount currentContext s.messages }

/-- The timestamp addMessage stores: the incoming one unless it is absent or the
falsy 0, in which case the current time. -/
def resolveTimestamp (now : Nat) : Option Nat → Nat
  | none => now
  | some 0 => now
  | some t => t

/-- Memory addMessage: refresh the connectivity flag (checkMongoConnection),
resolve the timestamp, prune first if the estimated buffer size plus the incoming
message size exceeds maxSizeBytes, append a copy of the message, and when the
store is connected queue an add marker and then force an immediate processBatch. -/
def addMessage {α : Type*} [LinearOrder α] (relScore : Message → String → α) (saveOk : Bool)
    (connNow : Bool) (now : Nat) (message : IncomingMessage) (currentContext : String)
    (s : MemState) : MemState × List DurableWrite :=
  let s0 := { s with isMongoConnected := connNow }
  let m : Message := ⟨message.role, message.text, resolveTimestamp now message.timestamp⟩
  let pr :=
    if s0.maxSizeBytes < (s0.messages.map estimateMessageSize).sum + estimateMessageSize m
    then pruneS relScore saveOk currentContext now s0
    else (s0, [])
  let s2 := { pr.1 with messages := pr.1.messages ++ [m] }
  if s2.isMongoConnected then
    let q := queueOperation saveOk (String.mk ['a', 'd', 'd']) m.timestamp now s2
    let b := processBatch saveOk q.1
    (b.1, pr.2 ++ q.2 ++ b.2)
  else (s2, pr.2)

/-- A sequence of addMessage calls performed while the durable store stays
connected, accumulating the durable writes they emit. -/
def addMessages {α : Type*} [LinearOrder α] (relScore : Message → String → α) (saveOk : Bool)
    (now : Nat) (batch : List (IncomingMessage × String)) (s : MemState) :
    MemState × List DurableWrite :=
  match batch with
  | [] => (s, [])
  | (message, currentContext) :: rest =>
    let r1 := addMessage relScore saveOk true now message currentContext s
    let r2 := addMessages relScore saveOk now rest r1.1
    (r2.1, r1.2 ++ r2.2)

/-- Memory flushPendingOperations: cancel any armed debounce timer and, when
markers are pending, process the batch at once. -/
def flushPendingOperations (saveOk : Bool) (s : MemState) : MemState × List DurableWrite :=
  let s0 := { s with batchTimerArmed := false }
  if s0.pendingOperations = [] then (s0, []) else processBatch saveOk s0

/-- Memory loadFromMongoDB: no document found leaves the buffer as it is; a
document with a malformed messages field resets the buffer to empty; a proper
snapshot replaces the buffer. -/
def loadFromMongoDB (store : String → StoreDoc) (s : MemState) : MemState :=
  match store s.sessionId with
  | StoreDoc.absent => s
  | StoreDoc.malformed => { s with messages := [] }
  | StoreDoc.snapshot msgs => { s with messages := msgs }

/-- Memory setSessionId: no-op when the id is unchanged; otherwise flush pending
operations for the current session, swap in the new id with an empty buffer,
re-check connectivity (connNow is the store state observed then), and reload from
the durable store when connected. -/
def setSessionId (store : String → StoreDoc) (saveOk : Bool) (connNow : Bool)
    (newSessionId : String) (s : MemState) : MemState × List DurableWrite :=
  if s.sessionId = newSessionId then (s, [])
  else
    let fl := flushPendingOperations saveOk s
    let s2 := { fl.1 with sessionId := newSessionId, messages := [], isMongoConnected := connNow }
    if s2.isMongoConnected then (loadFromMongoDB store s2, fl.2) else (s2, fl.2)

/-- The byte footprint getRelevantContext charges for one message: UTF-8 bytes of
role, a colon and space, the text, and a newline. -/
def messageContextBytes (m : Message) : Nat :=
  (m.role ++ String.mk [':', ' '] ++ m.text ++ String.mk ['\n']).utf8ByteSize

/-- The buffer sorted most relevant first against the current query; a stable
descending sort by score, as the JS comparator b.score - a.score under the
engine's stable sort. -/
def sortByRelevanceDesc {α : Type*} [LinearOrder α] (relScore : Message → String → α)
    (currentQuery : String) (messages : List Message) : List Message :=
  ((messages.map (fun m => (m, relScore m currentQuery))).insertionSort
    (fun a b => b.2 ≤ a.2)).map (fun p => p.1)

/-- The greedy packing loop of getRelevantContext: keep taking messages while the
running byte total stays within the budget, and stop (break) at the first message
that would overflow it. -/
def greedyPack (maxContextSize : Nat) : Nat → List Message → List Message
  | _, [] => []
  | contextSize, msg :: rest =>
    let msgSize := messageContextBytes msg
    if contextSize + msgSize ≤ maxContextSize then
      msg :: greedyPack maxContextSize (contextSize + msgSize) rest
    else []

/-- Memory getRelevantContext: empty buffer yields an empty context; otherwise
score, sort most relevant first, and greedily pack under the byte budget. The
method reads the state and performs no mutation, so the state passes through. -/
def getRelevantContext {α : Type*} [LinearOrder α] (relScore : Message → String → α)
    (currentQuery : String) (maxContextSize : Nat) (s : MemState) : MemState × List Message :=
  if s.messages.length = 0 then (s, [])
  else (s, greedyPack maxContextSize 0 (sortByRelevanceDesc relScore currentQuery s.messages))

/-- Memory getAllMessages: returns the buffer, mutating nothing. -/
def getAllMessages (s : MemState) : MemState × List Message :=
  (s, s.messages)

/-- Sample text with tokens hello and world (the example of the spec). -/
def sampleHelloWorld : String := "hello world"

/-- Sample text with tokens hello and there (the example of the spec). -/
def sampleHelloThere : String := "hello there"

/-- A score function that ranks every message equally; used to instantiate the
generic score parameter at concrete inputs. -/
def constScore : Message → String → Nat := fun _ _ => 0

/-- An embedding capability whose calls always fail. -/
def failingEmbed : String → Except Unit (List ℝ) := fun _ => Except.error ()

/-- A small concrete Memory state: count cap 1, byte cap 1000000, store
disconnected, empty buffer. -/
def stateCount1 : MemState :=
  { maxSizeBytes := 1000000, maxMessageCount := 1, messages := [],
    sessionId := "default-session", pendingOperations := [], batchTimerArmed := false,
    batchSaveDelay := 2000, maxBatchSize := 10, isSaving := false, isMongoConnected := false }

/-- A small concrete Memory state with the store connected and an empty marker
queue. -/
def stateConnected : MemState :=
  { maxSizeBytes := 1000000, maxMessageCount := 300, messages := [],
    sessionId := "default-session", pendingOperations := [], batchTimerArmed := false,
    batchSaveDelay := 2000, maxBatchSize := 10, isSaving := false, isMongoConnected := true }

/-- A concrete incoming message with text a and no timestamp. -/
def incomingA : IncomingMessage := { role := "user", text := "a", timestamp := none }

/-- A concrete incoming message with text b and no timestamp. -/
def incomingB : IncomingMessage := { role := "user", text := "b", timestamp := none }

/-- A concrete stored message. -/
def storedHi : Message := { role := "user", text := "hi", timestamp := 1 }

/-- A concrete pending add marker. -/
def pendingAdd : PendingOp := { opType := "add", payload := 1, timestamp := 1 }

/-- A concrete Memory state holding one message and one pending marker, with the
store connected and the lock free: the state just before a batch flush. -/
def stateOneMarker : MemState :=
  { maxSizeBytes := 1000000, maxMessageCount := 300, messages := [storedHi],
    sessionId := "default-session", pendingOperations := [pendingAdd], batchTimerArmed := true,
    batchSaveDelay := 2000, maxBatchSize := 10, isSaving := false, isMongoConnected := true }

/-- The id of a second concrete session. -/
def sessionB : String := "session-b"

/-- A concrete store holding a snapshot for session b and nothing for other
sessions. -/
def sampleStore : String → StoreDoc := fun sid =>
  if sid = "session-b" then StoreDoc.snapshot [storedHi] else StoreDoc.absent

/-- A concrete context string for witness instantiations. -/
def sampleContext : String := "c"

/-! Helper lemmas. -/

/-- The JS split worker never returns an empty list: every run ends by emitting
the piece under construction (possibly empty). -/
theorem splitAux_ne_nil : ∀ (cs : List Char) (st : Option (List Char)), splitAux cs st ≠ []
  | [], none => by simp [splitAux]
  | [], some acc => by simp [splitAux]
  | c :: cs, none => by
    by_cases h : isWordChar c <;> simp [splitAux, h] <;> exact splitAux_ne_nil cs _
  | c :: cs, some acc => by
    by_cases h : isWordChar c <;> simp [splitAux, h]
    exact splitAux_ne_nil cs _

/-- The token set of any text is nonempty, because a JS split always returns at
least one piece; hence the divide-by-zero case of the lexical scorer is
unreachable. -/
theorem wordSet_nonempty (s : String) : (wordSet s).Nonempty := by
  have h := splitAux_ne_nil (jsToLower s).data (some [])
  rcases hl : splitAux (jsToLower s).data (some []) with _ | ⟨a, rest⟩
  · exact absurd hl h
  · exact ⟨a, by simp [wordSet, jsSplitNonWord, hl]⟩

/-- Evaluation of the lexical scorer at the spec's example pair of texts. -/
theorem basicTextSimilarity_hello :
    basicTextSimilarity sampleHelloWorld sampleHelloThere = 1 / 2 := by
  have h1 : (wordSet sampleHelloWorld ∩ wordSet sampleHelloThere).card = 1 := by decide
  have h2 : (wordSet sampleHelloWorld).card * (wordSet sampleHelloThere).card = 4 := by decide
  rw [basicTextSimilarity]
  simp only [h1, h2]
  rw [show (((4:Nat)):ℝ) = (2:ℝ)^2 by norm_num, Real.sqrt_sq (by norm_num)]
  norm_num

/-- List dot product as a Finset.range sum over padded indexing. -/
theorem zipWith_mul_sum_eq :
    ∀ (v1 v2 : List ℝ), v1.length = v2.length →
      (List.zipWith (fun a b => a * b) v1 v2).sum =
        ∑ i ∈ Finset.range v1.length, v1.getD i 0 * v2.getD i 0
  | [], [], _ => by simp
  | [], b :: v2, h => by simp at h
  | a :: v1, [], h => by simp at h
  | a :: v1, b :: v2, h => by
    have ih := zipWith_mul_sum_eq v1 v2 (by simpa using h)
    simp only [List.zipWith_cons_cons, List.sum_cons, List.length_cons, ih,
      Finset.sum_range_succ']
    simp [add_comm]

/-- List sum of squares as a Finset.range sum over padded indexing. -/
theorem map_sq_sum_eq :
    ∀ (v : List ℝ), (v.map (fun x => x * x)).sum =
      ∑ i ∈ Finset.range v.length, v.getD i 0 ^ 2
  | [] => by simp
  | a :: v => by
    have ih := map_sq_sum_eq v
    simp only [List.map_cons, List.sum_cons, List.length_cons, ih, Finset.sum_range_succ']
    simp [add_comm, sq]

/-- Cauchy-Schwarz for the embedded cosine: the dot product is bounded by the
product of the magnitudes. -/
theorem abs_dot_le (v1 v2 : List ℝ) (h : v1.length = v2.length) :
    |(List.zipWith (fun a b => a * b) v1 v2).sum| ≤
      Real.sqrt ((v1.map (fun x => x * x)).sum) * Real.sqrt ((v2.map (fun x => x * x)).sum) := by
  rw [zipWith_mul_sum_eq v1 v2 h, map_sq_sum_eq v1, map_sq_sum_eq v2]
  have h2 : ∑ i ∈ Finset.range v2.length, v2.getD i 0 ^ 2 =
      ∑ i ∈ Finset.range v1.length, v2.getD i 0 ^ 2 := by rw [h]
  rw [h2]
  rw [abs_le]
  constructor
  · have hcs := Real.sum_mul_le_sqrt_mul_sqrt (Finset.range v1.length)
      (fun i => -(v1.getD i 0)) (fun i => v2.getD i 0)
    simp only [neg_mul, Finset.sum_neg_distrib, neg_sq] at hcs
    linarith
  · have hcs := Real.sum_mul_le_sqrt_mul_sqrt (Finset.range v1.length)
      (fun i => v1.getD i 0) (fun i => v2.getD i 0)
    exact hcs

/-! Claim theorems. -/

/-- C5: for every pair of texts the lexical similarity equals the size of the
intersection of the token sets divided by the square root of the product of
their sizes; it is 0 whenever either token set is empty (in fact token sets are
never empty, so no NaN or error can arise); it is symmetric; and on the texts
hello world and hello there it evaluates to 0.5. -/
theorem claim_C5 :
    (∀ t1 t2 : String, basicTextSimilarity t1 t2 =
      ((wordSet t1 ∩ wordSet t2).card : ℝ) /
        Real.sqrt ((((wordSet t1).card * (wordSet t2).card : Nat) : ℝ))) ∧
    (∀ t1 t2 : String, wordSet t1 = ∅ ∨ wordSet t2 = ∅ → basicTextSimilarity t1 t2 = 0) ∧
    (∀ t : String, (wordSet t).Nonempty) ∧
    (∀ t1 t2 : String, basicTextSimilarity t1 t2 = basicTextSimilarity t2 t1) ∧
    basicTextSimilarity sampleHelloWorld sampleHelloThere = 1 / 2 := by
  refine ⟨fun t1 t2 => rfl, ?_, wordSet_nonempty, ?_, basicTextSimilarity_hello⟩
  · intro t1 t2 h
    rcases h with h | h <;> simp [basicTextSimilarity, h]
  · intro t1 t2
    simp only [basicTextSimilarity]
    rw [Finset.inter_comm, Nat.mul_comm]

/-- C4 (amended): when either embedding call of the injected capability fails,
the try-catch in calculateRelevanceScore swallows the error and that single call
returns 0 (not the lexical-fallback similarity); no error reaches the caller. -/
theorem claim_C4 (embedContent : String → Except Unit (List ℝ))
    (messageText currentContext : String)
    (h : (∃ e, embedContent messageText = Except.error e) ∨
      (∃ e, embedContent currentContext = Except.error e)) :
    calculateRelevanceScore (some embedContent) messageText currentContext = 0 := by
  simp only [calculateRelevanceScore]
  rcases h with ⟨e, he⟩ | ⟨e, he⟩
  · rw [he]
  · rcases hm : embedContent messageText with e1 | v1
    · rfl
    · rw [he]

/-- C4 counterexample: with a failing embedding capability the scorer returns 0,
which differs from the lexical-fallback similarity (0.5) of the two texts, so
the call does not degrade to the lexical fallback as the claim states. -/
theorem claim_C4_counterexample :
    calculateRelevanceScore (some failingEmbed) sampleHelloWorld sampleHelloThere ≠
      basicTextSimilarity sampleHelloWorld sampleHelloThere := by
  have h0 : calculateRelevanceScore (some failingEmbed) sampleHelloWorld sampleHelloThere = 0 :=
    rfl
  rw [h0, basicTextSimilarity_hello]
  norm_num

/-- C4 witness: the amended theorem applied to a concrete failing capability. -/
theorem claim_C4_witness :
    calculateRelevanceScore (some failingEmbed) sampleHelloWorld sampleHelloThere = 0 :=
  claim_C4 failingEmbed sampleHelloWorld sampleHelloThere (Or.inl ⟨(), rfl⟩)

/-- C9: the cosine similarity score is 0 on vectors of mismatched lengths, and
is always bounded between -1 and 1 (real-number model: the division is the
Lean-total one, so a zero magnitude yields score 0). -/
theorem claim_C9 (vec1 vec2 : List ℝ) :
    (vec1.length ≠ vec2.length → cosineSimilarity vec1 vec2 = 0) ∧
    -1 ≤ cosineSimilarity vec1 vec2 ∧ cosineSimilarity vec1 vec2 ≤ 1 := by
  refine ⟨fun h => by simp [cosineSimilarity, h], ?_⟩
  by_cases h : vec1.length = vec2.length
  · have habs : |cosineSimilarity vec1 vec2| ≤ 1 := by
      simp only [cosineSimilarity, if_neg (not_not_intro h)]
      set dot := (List.zipWith (fun a b => a * b) vec1 vec2).sum with hdot
      set den := Real.sqrt ((vec1.map (fun x => x * x)).sum) *
        Real.sqrt ((vec2.map (fun x => x * x)).sum) with hden
      have hden0 : 0 ≤ den := mul_nonneg (Real.sqrt_nonneg _) (Real.sqrt_nonneg _)
      have hle : |dot| ≤ den := abs_dot_le vec1 vec2 h
      rcases eq_or_lt_of_le hden0 with hz | hpos
      · rw [← hz, div_zero, abs_zero]
        norm_num
      · rw [abs_div, abs_of_pos hpos]
        exact (div_le_one hpos).mpr hle
    exact abs_le.mp habs
  · simp [cosineSimilarity, h]

/-- C9 witness: mismatched lengths give score 0 at a concrete pair of vectors,
and the bounds hold there. -/
theorem claim_C9_witness :
    cosineSimilarity [(1 : ℝ)] [(1 : ℝ), 2] = 0 ∧
      -1 ≤ cosineSimilarity [(1 : ℝ)] [(1 : ℝ), 2] := by
  have h := claim_C9 [(1 : ℝ)] [(1 : ℝ), 2]
  exact ⟨h.1 (by simp), h.2.1⟩

/-- C10: getRelevantContext is a pure read: the Memory state after the call (its
buffer, session id, pending queue and every other field) is the state before it,
and getAllMessages likewise returns the buffer without mutation. -/
theorem claim_C10 {α : Type*} [LinearOrder α] (relScore : Message → String → α)
    (currentQuery : String) (maxContextSize : Nat) (s : MemState) :
    (getRelevantContext relScore currentQuery maxContextSize s).1 = s ∧
      (getAllMessages s).1 = s ∧ (getAllMessages s).2 = s.messages := by
  refine ⟨?_, rfl, rfl⟩
  rw [getRelevantContext]
  split <;> rfl

/-- C7: evaluation of the flush-failure path at a concrete state with one pending
marker. The batch flush clears the queue, the failed save path leaves the queue
empty (the catch block re-assigns the already-cleared queue to itself, contrary
to its re-queue comment), and a subsequent flush performs no durable write: the
failed write is never retried. -/
theorem claim_C7 :
    stateOneMarker.pendingOperations ≠ [] ∧
    (processBatch false stateOneMarker).1.pendingOperations = [] ∧
    (processBatch false stateOneMarker).2 = [⟨stateOneMarker.sessionId, [storedHi]⟩] ∧
    (flushPendingOperations false (processBatch false stateOneMarker).1).2 = [] := by
  refine ⟨by decide, by decide, by decide, by decide⟩

variable {α : Type*} [LinearOrder α]


variable {α : Type*} [LinearOrder α]

theorem scoredList_map_fst (relScore : Message → String → α) (ctx : String) (msgs : List Message) :
    (scoredList relScore ctx msgs).map Prod.fst = List.range msgs.length := by
  rw [scoredList, List.map_map]
  have : (Prod.fst ∘ fun p : Nat × Message => (p.1, p.2, relScore p.2 ctx)) = Prod.fst := rfl
  rw [this, List.enum_map_fst]

theorem scoredList_length (relScore : Message → String → α) (ctx : String) (msgs : List Message) :
    (scoredList relScore ctx msgs).length = msgs.length := by
  rw [scoredList, List.length_map, List.enum_length]

theorem sortedScored_perm (relScore : Message → String → α) (ctx : String) (msgs : List Message) :
    List.Perm (sortedScored relScore ctx msgs) (scoredList relScore ctx msgs) :=
  List.perm_insertionSort _ _

theorem sortedScored_sorted (relScore : Message → String → α) (ctx : String) (msgs : List Message) :
    List.Sorted (fun a b : Nat × Message × α => a.2.2 ≤ b.2.2) (sortedScored relScore ctx msgs) := by
  haveI h1 : IsTotal (Nat × Message × α) (fun a b => a.2.2 ≤ b.2.2) :=
    ⟨fun a b => le_total a.2.2 b.2.2⟩
  haveI h2 : IsTrans (Nat × Message × α) (fun a b => a.2.2 ≤ b.2.2) :=
    ⟨fun _ _ _ hab hbc => le_trans hab hbc⟩
  exact List.sorted_insertionSort _ _

theorem sortedScored_length (relScore : Message → String → α) (ctx : String) (msgs : List Message) :
    (sortedScored relScore ctx msgs).length = msgs.length :=
  (sortedScored_perm relScore ctx msgs).length_eq.trans (scoredList_length relScore ctx msgs)

theorem sortedScored_map_fst_nodup (relScore : Message → String → α) (ctx : String)
    (msgs : List Message) : ((sortedScored relScore ctx msgs).map Prod.fst).Nodup := by
  have hperm : List.Perm ((sortedScored relScore ctx msgs).map Prod.fst)
      ((scoredList relScore ctx msgs).map Prod.fst) :=
    (sortedScored_perm relScore ctx msgs).map Prod.fst
  rw [hperm.nodup_iff, scoredList_map_fst]
  exact List.nodup_range _

theorem mem_scoredList_elim {relScore : Message → String → α} {ctx : String}
    {msgs : List Message} {x : Nat × Message × α} (hx : x ∈ scoredList relScore ctx msgs) :
    (x.1, x.2.1) ∈ msgs.enum ∧ x.2.2 = relScore x.2.1 ctx := by
  rw [scoredList, List.mem_map] at hx
  obtain ⟨p, hp, hpx⟩ := hx
  subst hpx
  exact ⟨hp, rfl⟩

theorem mem_scoredList_intro {relScore : Message → String → α} {ctx : String}
    {msgs : List Message} {p : Nat × Message} (hp : p ∈ msgs.enum) :
    (p.1, p.2, relScore p.2 ctx) ∈ scoredList relScore ctx msgs := by
  rw [scoredList, List.mem_map]
  exact ⟨p, hp, rfl⟩

theorem enum_fst_lt {l : List Message} {p : Nat × Message} (hp : p ∈ l.enum) :
    p.1 < l.length := by
  have := List.mk_mem_enum_iff_getElem?.mp (by simpa using hp)
  exact (List.getElem?_eq_some.mp this).1

theorem enum_fst_inj {l : List Message} {p q : Nat × Message} (hp : p ∈ l.enum)
    (hq : q ∈ l.enum) (h : p.1 = q.1) : p = q := by
  have h1 := List.mk_mem_enum_iff_getElem?.mp (by simpa using hp)
  have h2 := List.mk_mem_enum_iff_getElem?.mp (by simpa using hq)
  rw [h] at h1
  rw [h1] at h2
  have h3 := Option.some.inj h2
  exact Prod.ext h h3

theorem removedIndices_length (relScore : Message → String → α) (maxCount : Nat) (ctx : String)
    (msgs : List Message) :
    (removedIndices relScore maxCount ctx msgs).length = msgs.length - maxCount := by
  rw [removedIndices, List.length_map, List.length_take, sortedScored_length]
  omega

theorem removedIndices_nodup (relScore : Message → String → α) (maxCount : Nat) (ctx : String)
    (msgs : List Message) : (removedIndices relScore maxCount ctx msgs).Nodup := by
  rw [removedIndices]
  exact (sortedScored_map_fst_nodup relScore ctx msgs).sublist
    ((List.take_sublist _ _).map Prod.fst)

theorem removedIndices_lt {relScore : Message → String → α} {maxCount : Nat} {ctx : String}
    {msgs : List Message} {i : Nat} (hi : i ∈ removedIndices relScore maxCount ctx msgs) :
    i < msgs.length := by
  rw [removedIndices, List.mem_map] at hi
  obtain ⟨x, hx, hxi⟩ := hi
  have hxL : x ∈ sortedScored relScore ctx msgs := List.mem_of_mem_take hx
  have hxS : x ∈ scoredList relScore ctx msgs := (sortedScored_perm relScore ctx msgs).mem_iff.mp hxL
  have := enum_fst_lt (mem_scoredList_elim hxS).1
  omega

theorem mem_take_of_fst_mem {relScore : Message → String → α} {maxCount : Nat} {ctx : String}
    {msgs : List Message} {p : Nat × Message} (hp : p ∈ msgs.enum)
    (hmem : p.1 ∈ removedIndices relScore maxCount ctx msgs) :
    (p.1, p.2, relScore p.2 ctx) ∈
      (sortedScored relScore ctx msgs).take (msgs.length - maxCount) := by
  rw [removedIndices, List.mem_map] at hmem
  obtain ⟨x, hx, hxi⟩ := hmem
  have hxL : x ∈ sortedScored relScore ctx msgs := List.mem_of_mem_take hx
  have hxS : x ∈ scoredList relScore ctx msgs := (sortedScored_perm relScore ctx msgs).mem_iff.mp hxL
  obtain ⟨hxe, hxs⟩ := mem_scoredList_elim hxS
  have hpq : (x.1, x.2.1) = p := enum_fst_inj hxe hp hxi
  have hxval : x = (p.1, p.2, relScore p.2 ctx) := by
    obtain ⟨i, m, sc⟩ := x
    simp only at hxe hxs hpq ⊢
    rw [← hpq]
    simp [hxs]
  rw [← hxval]
  exact hx

theorem mem_drop_of_fst_not_mem {relScore : Message → String → α} {maxCount : Nat} {ctx : String}
    {msgs : List Message} {q : Nat × Message} (hq : q ∈ msgs.enum)
    (hnot : q.1 ∉ removedIndices relScore maxCount ctx msgs) :
    (q.1, q.2, relScore q.2 ctx) ∈
      (sortedScored relScore ctx msgs).drop (msgs.length - maxCount) := by
  have hyS : (q.1, q.2, relScore q.2 ctx) ∈ scoredList relScore ctx msgs :=
    mem_scoredList_intro hq
  have hyL : (q.1, q.2, relScore q.2 ctx) ∈ sortedScored relScore ctx msgs :=
    (sortedScored_perm relScore ctx msgs).symm.mem_iff.mp hyS
  rw [← List.take_append_drop (msgs.length - maxCount) (sortedScored relScore ctx msgs),
    List.mem_append] at hyL
  rcases hyL with hyt | hyd
  · exfalso
    apply hnot
    rw [removedIndices, List.mem_map]
    exact ⟨(q.1, q.2, relScore q.2 ctx), hyt, rfl⟩
  · exact hyd

theorem removed_le_kept {relScore : Message → String → α} {maxCount : Nat} {ctx : String}
    {msgs : List Message} {p q : Nat × Message} (hp : p ∈ msgs.enum) (hq : q ∈ msgs.enum)
    (hpr : p.1 ∈ removedIndices relScore maxCount ctx msgs)
    (hqk : q.1 ∉ removedIndices relScore maxCount ctx msgs) :
    relScore p.2 ctx ≤ relScore q.2 ctx :=
  List.Sorted.rel_of_mem_take_of_mem_drop (sortedScored_sorted relScore ctx msgs)
    (mem_take_of_fst_mem hp hpr) (mem_drop_of_fst_not_mem hq hqk)

theorem length_filter_add_length_filter_not {β : Type*} (l : List β) (p : β → Bool) :
    (l.filter p).length + (l.filter (fun b => !(p b))).length = l.length := by
  induction l with
  | nil => simp
  | cons a l ih =>
    by_cases h : p a <;> simp [List.filter_cons, h] <;> omega

theorem filter_map_fst_comm {β γ : Type*} (l : List (β × γ)) (q : β → Bool) :
    (l.filter (fun p => q p.1)).map Prod.fst = (l.map Prod.fst).filter q := by
  induction l with
  | nil => simp
  | cons a l ih =>
    by_cases h : q a.1 <;> simp [List.filter_cons, h, ih]

theorem length_filter_range_mem (R : List Nat) (n : Nat) (hnd : R.Nodup)
    (hlt : ∀ i ∈ R, i < n) :
    ((List.range n).filter (fun i => decide (i ∈ R))).length = R.length := by
  have hsub : ((List.range n).filter (fun i => decide (i ∈ R))).Nodup :=
    (List.nodup_range n).filter _
  have hfin : ((List.range n).filter (fun i => decide (i ∈ R))).toFinset = R.toFinset := by
    ext x
    simp only [List.mem_toFinset, List.mem_filter, List.mem_range, decide_eq_true_eq]
    exact ⟨fun h => h.2, fun h => ⟨hlt x h, h⟩⟩
  have h1 := List.toFinset_card_of_nodup hsub
  have h2 := List.toFinset_card_of_nodup hnd
  rw [hfin, h2] at h1
  exact h1.symm

theorem enum_filter_mem_length (relScore : Message → String → α) (maxCount : Nat) (ctx : String)
    (msgs : List Message) :
    ((msgs.enum.filter
      (fun p => decide (p.1 ∈ removedIndices relScore maxCount ctx msgs))).length) =
      msgs.length - maxCount := by
  have hc : ((msgs.enum.filter
      (fun p => decide (p.1 ∈ removedIndices relScore maxCount ctx msgs))).map Prod.fst).length =
      ((msgs.enum.map Prod.fst).filter
        (fun i => decide (i ∈ removedIndices relScore maxCount ctx msgs))).length :=
    congrArg List.length (filter_map_fst_comm msgs.enum
      (fun i => decide (i ∈ removedIndices relScore maxCount ctx msgs)))
  rw [List.length_map] at hc
  rw [hc, List.enum_map_fst,
    length_filter_range_mem _ _ (removedIndices_nodup relScore maxCount ctx msgs)
      (fun i hi => removedIndices_lt hi),
    removedIndices_length]

theorem pruneCore_length (relScore : Message → String → α) (maxCount : Nat) (ctx : String)
    (msgs : List Message) :
    (pruneCore relScore maxCount ctx msgs).length =
      if msgs.length ≤ maxCount then msgs.length else maxCount := by
  by_cases h : msgs.length ≤ maxCount
  · rw [pruneCore, if_pos h, if_pos h]
  · rw [pruneCore, if_neg h, if_neg h, List.length_map]
    have hsplit := length_filter_add_length_filter_not msgs.enum
      (fun p => decide (p.1 ∈ removedIndices relScore maxCount ctx msgs))
    have hmem := enum_filter_mem_length relScore maxCount ctx msgs
    have hen : msgs.enum.length = msgs.length := List.enum_length
    have hgoal : (msgs.enum.filter
        (fun p => !(decide (p.1 ∈ removedIndices relScore maxCount ctx msgs)))).length =
        msgs.length - (msgs.length - maxCount) := by omega
    rw [hgoal]
    omega

theorem pruneCore_sublist (relScore : Message → String → α) (maxCount : Nat) (ctx : String)
    (msgs : List Message) : (pruneCore relScore maxCount ctx msgs).Sublist msgs := by
  by_cases h : msgs.length ≤ maxCount
  · rw [pruneCore, if_pos h]
  · rw [pruneCore, if_neg h]
    have hsub : (msgs.enum.filter
        (fun p => !(decide (p.1 ∈ removedIndices relScore maxCount ctx msgs)))).Sublist
        msgs.enum := List.filter_sublist _
    have := hsub.map Prod.snd
    rwa [List.enum_map_snd] at this

theorem pruneCore_eq_self {relScore : Message → String → α} {maxCount : Nat} {ctx : String}
    {msgs : List Message} (h : msgs.length ≤ maxCount) :
    pruneCore relScore maxCount ctx msgs = msgs := by
  rw [pruneCore, if_pos h]

theorem pruneCore_filter_eq (relScore : Message → String → α) (maxCount : Nat) (ctx : String)
    (msgs : List Message) :
    pruneCore relScore maxCount ctx msgs =
      (msgs.enum.filter
        (fun p => !(decide (p.1 ∈ removedIndices relScore maxCount ctx msgs)))).map
        (fun p => p.2) := by
  by_cases h : msgs.length ≤ maxCount
  · rw [pruneCore, if_pos h]
    have hk : msgs.length - maxCount = 0 := by omega
    have hR : removedIndices relScore maxCount ctx msgs = [] := by
      have := removedIndices_length relScore maxCount ctx msgs
      rw [hk] at this
      exact List.length_eq_zero.mp this
    rw [hR]
    have hpred : (fun p : Nat × Message => !(decide (p.1 ∈ ([] : List Nat)))) =
        fun _ => true := by
      funext p
      simp
    rw [hpred, List.filter_true]
    rw [show ((fun p : Nat × Message => p.2)) = Prod.snd from rfl, List.enum_map_snd]
  · rw [pruneCore, if_neg h]

/-- C3: for every score function, count cap and buffer, prune leaves the buffer
unchanged when its length is within maxMessageCount, and otherwise removes
exactly length-minus-maxMessageCount messages, chosen (by index) among the
lowest-scoring ones against the context, keeping the rest in their original
relative order (the result is a sublist of the buffer of length
maxMessageCount). -/
theorem claim_C3 {α : Type*} [LinearOrder α] (relScore : Message → String → α)
    (maxMessageCount : Nat) (currentContext : String) (messages : List Message) :
    (messages.length ≤ maxMessageCount →
      pruneCore relScore maxMessageCount currentContext messages = messages) ∧
    (pruneCore relScore maxMessageCount currentContext messages).Sublist messages ∧
    (maxMessageCount ≤ messages.length →
      (pruneCore relScore maxMessageCount currentContext messages).length = maxMessageCount) ∧
    ∃ removed : List Nat,
      removed.Nodup ∧
      removed.length = messages.length - maxMessageCount ∧
      (∀ i ∈ removed, i < messages.length) ∧
      pruneCore relScore maxMessageCount currentContext messages =
        (messages.enum.filter (fun p => !(decide (p.1 ∈ removed)))).map (fun p => p.2) ∧
      (∀ p ∈ messages.enum, p.1 ∈ removed → ∀ q ∈ messages.enum, q.1 ∉ removed →
        relScore p.2 currentContext ≤ relScore q.2 currentContext) := by
  refine ⟨fun h => pruneCore_eq_self h, pruneCore_sublist relScore maxMessageCount currentContext messages, ?_,
    removedIndices relScore maxMessageCount currentContext messages,
    removedIndices_nodup relScore maxMessageCount currentContext messages,
    removedIndices_length relScore maxMessageCount currentContext messages,
    fun i hi => removedIndices_lt hi,
    pruneCore_filter_eq relScore maxMessageCount currentContext messages,
    fun p hp hpr q hq hqk => removed_le_kept hp hq hpr hqk⟩
  intro h
  rw [pruneCore_length]
  split <;> omega

theorem pruneCore_eval :
    (pruneCore (α := Nat) constScore 1 sampleContext [storedHi, storedHi]).length = 1 := by
  decide

theorem processBatch_shape (saveOk : Bool) (s : MemState) :
    ∃ P, (processBatch saveOk s).1 = { s with pendingOperations := P } := by
  rw [processBatch]
  split
  · exact ⟨s.pendingOperations, rfl⟩
  · split
    · exact ⟨[], rfl⟩
    · exact ⟨[], rfl⟩

theorem scheduleBatchProcessing_shape (saveOk : Bool) (s : MemState) :
    ∃ P T, (scheduleBatchProcessing saveOk s).1 =
      { s with pendingOperations := P, batchTimerArmed := T } := by
  rw [scheduleBatchProcessing]
  split
  · obtain ⟨P, hP⟩ := processBatch_shape saveOk { s with batchTimerArmed := false }
    exact ⟨P, false, by rw [hP]⟩
  · exact ⟨s.pendingOperations, true, rfl⟩

theorem queueOperation_shape (saveOk : Bool) (opType : String) (payload now : Nat) (s : MemState) :
    ∃ P T, (queueOperation saveOk opType payload now s).1 =
      { s with pendingOperations := P, batchTimerArmed := T } := by
  rw [queueOperation]
  split
  · exact ⟨s.pendingOperations, s.batchTimerArmed, rfl⟩
  · obtain ⟨P, T, hPT⟩ := scheduleBatchProcessing_shape saveOk
      { s with pendingOperations := s.pendingOperations ++ [⟨opType, payload, now⟩] }
    exact ⟨P, T, by rw [hPT]⟩

theorem processBatch_fst_messages (saveOk : Bool) (s : MemState) :
    (processBatch saveOk s).1.messages = s.messages := by
  obtain ⟨P, h⟩ := processBatch_shape saveOk s
  rw [h]

theorem processBatch_fst_isMongoConnected (saveOk : Bool) (s : MemState) :
    (processBatch saveOk s).1.isMongoConnected = s.isMongoConnected := by
  obtain ⟨P, h⟩ := processBatch_shape saveOk s
  rw [h]

theorem queueOperation_fst_messages (saveOk : Bool) (opType : String) (payload now : Nat)
    (s : MemState) : (queueOperation saveOk opType payload now s).1.messages = s.messages := by
  obtain ⟨P, T, h⟩ := queueOperation_shape saveOk opType payload now s
  rw [h]

theorem queueOperation_fst_isMongoConnected (saveOk : Bool) (opType : String) (payload now : Nat)
    (s : MemState) :
    (queueOperation saveOk opType payload now s).1.isMongoConnected = s.isMongoConnected := by
  obtain ⟨P, T, h⟩ := queueOperation_shape saveOk opType payload now s
  rw [h]

theorem pruneS_messages {α : Type*} [LinearOrder α] (relScore : Message → String → α)
    (saveOk : Bool) (currentContext : String) (now : Nat) (s : MemState) :
    (pruneS relScore saveOk currentContext now s).1.messages =
      pruneCore relScore s.maxMessageCount currentContext s.messages := by
  rw [pruneS]
  split
  · rename_i h
    rw [pruneCore_eq_self h]
  · rw [queueOperation_fst_messages]

theorem pruneS_fst_isMongoConnected {α : Type*} [LinearOrder α]
    (relScore : Message → String → α) (saveOk : Bool) (currentContext : String) (now : Nat)
    (s : MemState) :
    (pruneS relScore saveOk currentContext now s).1.isMongoConnected = s.isMongoConnected := by
  rw [pruneS]
  split
  · rfl
  · rw [queueOperation_fst_isMongoConnected]

theorem addMessage_messages_eq {α : Type*} [LinearOrder α] (relScore : Message → String → α)
    (saveOk connNow : Bool) (now : Nat) (message : IncomingMessage) (currentContext : String)
    (s : MemState) :
    (addMessage relScore saveOk connNow now message currentContext s).1.messages =
      (if s.maxSizeBytes < (s.messages.map estimateMessageSize).sum +
          estimateMessageSize ⟨message.role, message.text, resolveTimestamp now message.timestamp⟩
        then pruneCore relScore s.maxMessageCount currentContext s.messages
        else s.messages) ++
        [⟨message.role, message.text, resolveTimestamp now message.timestamp⟩] := by
  by_cases htrig : s.maxSizeBytes < (s.messages.map estimateMessageSize).sum +
      estimateMessageSize ⟨message.role, message.text, resolveTimestamp now message.timestamp⟩
  · simp only [addMessage, if_pos htrig]
    split
    · rw [processBatch_fst_messages, queueOperation_fst_messages]
      simp only [pruneS_messages]
    · simp only [pruneS_messages]
  · simp only [addMessage, if_neg htrig]
    split
    · rw [processBatch_fst_messages, queueOperation_fst_messages]
    · rfl

/-- C1 (amended): addMessage prunes only on the byte trigger, before appending:
the buffer length after a call is at most max(previous length, maxMessageCount)
plus one, and equals previous length plus one whenever the byte trigger does not
fire. No count trigger runs after the append, so the length is not bounded by
maxMessageCount. -/
theorem claim_C1 {α : Type*} [LinearOrder α] (relScore : Message → String → α)
    (saveOk connNow : Bool) (now : Nat) (message : IncomingMessage) (currentContext : String)
    (s : MemState) :
    (addMessage relScore saveOk connNow now message currentContext s).1.messages.length ≤
      max s.messages.length s.maxMessageCount + 1 ∧
    (¬ s.maxSizeBytes < (s.messages.map estimateMessageSize).sum +
        estimateMessageSize ⟨message.role, message.text, resolveTimestamp now message.timestamp⟩ →
      (addMessage relScore saveOk connNow now message currentContext s).1.messages.length =
        s.messages.length + 1) := by
  rw [addMessage_messages_eq, List.length_append]
  simp only [List.length_singleton]
  constructor
  · split
    · rw [pruneCore_length]
      split <;> omega
    · omega
  · intro h
    rw [if_neg h]

/-- C1 counterexample: with maxMessageCount 1 and a large byte budget, three
addMessage calls leave three messages in the buffer: the buffer length exceeds
maxMessageCount after a call returns and no pruning pass has run. -/
theorem claim_C1_counterexample :
    (addMessage constScore true false 5 incomingA sampleContext
      (addMessage constScore true false 5 incomingB sampleContext
        (addMessage constScore true false 5 incomingA sampleContext stateCount1).1).1).1.messages.length = 3 ∧
    (addMessage constScore true false 5 incomingA sampleContext
      (addMessage constScore true false 5 incomingB sampleContext
        (addMessage constScore true false 5 incomingA sampleContext stateCount1).1).1).1.maxMessageCount = 1 := by
  exact ⟨by decide, by decide⟩

theorem processBatch_of_empty (saveOk : Bool) (s : MemState) (h : s.pendingOperations = []) :
    processBatch saveOk s = (s, []) := by
  rw [processBatch, if_pos (Or.inr h)]

theorem saveToMongoDB_pending (s : MemState) (P : List PendingOp) :
    saveToMongoDB { s with pendingOperations := P } = saveToMongoDB s := rfl

theorem processBatch_of_nonempty (saveOk : Bool) (s : MemState) (hsv : s.isSaving = false)
    (hne : s.pendingOperations ≠ []) :
    processBatch saveOk s = ({ s with pendingOperations := [] }, saveToMongoDB s) := by
  have hcond : ¬ (s.isSaving = true ∨ s.pendingOperations = []) := by
    simp [hsv, hne]
  simp only [processBatch, if_neg hcond]
  split
  · rfl
  · rfl

theorem scheduleBatch_of_arm (saveOk : Bool) (s : MemState)
    (h : s.pendingOperations.length < s.maxBatchSize) :
    scheduleBatchProcessing saveOk s = ({ s with batchTimerArmed := true }, []) := by
  simp only [scheduleBatchProcessing]
  rw [if_neg (not_le.mpr h)]

theorem scheduleBatch_of_flush (saveOk : Bool) (s : MemState) (hsv : s.isSaving = false)
    (hne : s.pendingOperations ≠ []) (h : s.maxBatchSize ≤ s.pendingOperations.length) :
    scheduleBatchProcessing saveOk s =
      ({ s with pendingOperations := [], batchTimerArmed := false }, saveToMongoDB s) := by
  simp only [scheduleBatchProcessing]
  rw [if_pos h, processBatch_of_nonempty saveOk { s with batchTimerArmed := false } hsv hne]
  rfl

theorem queueOperation_of_connected (saveOk : Bool) (t : String) (p now : Nat) (s : MemState)
    (hconn : s.isMongoConnected = true) :
    queueOperation saveOk t p now s =
      scheduleBatchProcessing saveOk
        { s with pendingOperations := s.pendingOperations ++ [⟨t, p, now⟩] } := by
  simp [queueOperation, hconn]

theorem queue_then_process (saveOk : Bool) (t : String) (p now : Nat) (s2 : MemState)
    (hconn : s2.isMongoConnected = true) (hsv : s2.isSaving = false) :
    (queueOperation saveOk t p now s2).2 ++
        (processBatch saveOk (queueOperation saveOk t p now s2).1).2 =
      [⟨s2.sessionId, s2.messages⟩] ∧
    (processBatch saveOk (queueOperation saveOk t p now s2).1).1.pendingOperations = [] ∧
    (processBatch saveOk (queueOperation saveOk t p now s2).1).1.isSaving = false ∧
    (processBatch saveOk (queueOperation saveOk t p now s2).1).1.sessionId = s2.sessionId ∧
    (processBatch saveOk (queueOperation saveOk t p now s2).1).1.maxBatchSize = s2.maxBatchSize ∧
    (processBatch saveOk (queueOperation saveOk t p now s2).1).1.messages = s2.messages ∧
    (processBatch saveOk (queueOperation saveOk t p now s2).1).1.isMongoConnected = true := by
  obtain ⟨msB, mmc, msgs, sid, pend, timer, bsd, mbs, sav, conn⟩ := s2
  simp only at hconn hsv
  subst hconn
  subst hsv
  simp only [queueOperation, scheduleBatchProcessing, processBatch, saveToMongoDB]
  split_ifs <;> simp_all

theorem pruneS_writes_of_small {α : Type*} [LinearOrder α] (relScore : Message → String → α)
    (saveOk : Bool) (currentContext : String) (now : Nat) (s : MemState)
    (h : s.pendingOperations.length + 1 < s.maxBatchSize) :
    (pruneS relScore saveOk currentContext now s).2 = [] := by
  rw [pruneS]
  split
  · rfl
  · rw [queueOperation]
    split
    · rfl
    · rw [scheduleBatch_of_arm]
      simp [List.length_append]
      omega

theorem pruneS_shape {α : Type*} [LinearOrder α] (relScore : Message → String → α)
    (saveOk : Bool) (currentContext : String) (now : Nat) (s : MemState) :
    ∃ M P T, (pruneS relScore saveOk currentContext now s).1 =
      { s with messages := M, pendingOperations := P, batchTimerArmed := T } := by
  rw [pruneS]
  split
  · exact ⟨s.messages, s.pendingOperations, s.batchTimerArmed, rfl⟩
  · obtain ⟨P, T, hPT⟩ := queueOperation_shape saveOk (String.mk ['p', 'r', 'u', 'n', 'e'])
      (s.messages.length - s.maxMessageCount) now
      { s with messages := pruneCore relScore s.maxMessageCount currentContext s.messages }
    exact ⟨pruneCore relScore s.maxMessageCount currentContext s.messages, P, T, by rw [hPT]⟩

theorem pruneS_fst_isSaving {α : Type*} [LinearOrder α] (relScore : Message → String → α)
    (saveOk : Bool) (currentContext : String) (now : Nat) (s : MemState) :
    (pruneS relScore saveOk currentContext now s).1.isSaving = s.isSaving := by
  obtain ⟨M, P, T, h⟩ := pruneS_shape relScore saveOk currentContext now s
  rw [h]

theorem pruneS_fst_sessionId {α : Type*} [LinearOrder α] (relScore : Message → String → α)
    (saveOk : Bool) (currentContext : String) (now : Nat) (s : MemState) :
    (pruneS relScore saveOk currentContext now s).1.sessionId = s.sessionId := by
  obtain ⟨M, P, T, h⟩ := pruneS_shape relScore saveOk currentContext now s
  rw [h]

theorem pruneS_fst_maxBatchSize {α : Type*} [LinearOrder α] (relScore : Message → String → α)
    (saveOk : Bool) (currentContext : String) (now : Nat) (s : MemState) :
    (pruneS relScore saveOk currentContext now s).1.maxBatchSize = s.maxBatchSize := by
  obtain ⟨M, P, T, h⟩ := pruneS_shape relScore saveOk currentContext now s
  rw [h]

theorem addMessage_connected_step {α : Type*} [LinearOrder α] (relScore : Message → String → α)
    (saveOk : Bool) (now : Nat) (message : IncomingMessage) (currentContext : String)
    (s : MemState) (hp : s.pendingOperations = []) (hsv : s.isSaving = false)
    (hmb : 2 ≤ s.maxBatchSize) :
    (addMessage relScore saveOk true now message currentContext s).2 =
      [⟨s.sessionId, (addMessage relScore saveOk true now message currentContext s).1.messages⟩] ∧
    (addMessage relScore saveOk true now message currentContext s).1.pendingOperations = [] ∧
    (addMessage relScore saveOk true now message currentContext s).1.isSaving = false ∧
    (addMessage relScore saveOk true now message currentContext s).1.sessionId = s.sessionId ∧
    (addMessage relScore saveOk true now message currentContext s).1.maxBatchSize =
      s.maxBatchSize ∧
    (addMessage relScore saveOk true now message currentContext s).1.isMongoConnected = true := by
  simp only [addMessage]
  by_cases htrig : s.maxSizeBytes < (s.messages.map estimateMessageSize).sum +
      estimateMessageSize ⟨message.role, message.text, resolveTimestamp now message.timestamp⟩
  · simp only [if_pos htrig]
    have hw : (pruneS relScore saveOk currentContext now
        { s with isMongoConnected := true }).2 = [] := by
      apply pruneS_writes_of_small
      simp only
      rw [hp]
      simpa using hmb
    have h1 : (pruneS relScore saveOk currentContext now
        { s with isMongoConnected := true }).1.isMongoConnected = true := by
      rw [pruneS_fst_isMongoConnected]
    have h2 : (pruneS relScore saveOk currentContext now
        { s with isMongoConnected := true }).1.isSaving = false := by
      rw [pruneS_fst_isSaving]
      exact hsv
    have h3 : (pruneS relScore saveOk currentContext now
        { s with isMongoConnected := true }).1.sessionId = s.sessionId := by
      rw [pruneS_fst_sessionId]
    have h4 : (pruneS relScore saveOk currentContext now
        { s with isMongoConnected := true }).1.maxBatchSize = s.maxBatchSize := by
      rw [pruneS_fst_maxBatchSize]
    rw [hw]
    generalize (pruneS relScore saveOk currentContext now
      { s with isMongoConnected := true }).1 = u at h1 h2 h3 h4 ⊢
    have qtp := queue_then_process saveOk (String.mk ['a', 'd', 'd'])
      (resolveTimestamp now message.timestamp) now
      { u with messages := u.messages ++
        [⟨message.role, message.text, resolveTimestamp now message.timestamp⟩] } h1 h2
    simp only [h1] at qtp
    obtain ⟨hq1, hq2, hq3, hq4, hq5, hq6, hq7⟩ := qtp
    simp only [h1, eq_self_iff_true, if_true, List.nil_append]
    exact ⟨by rw [hq6, hq1, h3], hq2, hq3, by rw [hq4, h3], by rw [hq5, h4], hq7⟩
  · simp only [if_neg htrig]
    have qtp := queue_then_process saveOk (String.mk ['a', 'd', 'd'])
      (resolveTimestamp now message.timestamp) now
      { s with isMongoConnected := true, messages := s.messages ++
        [⟨message.role, message.text, resolveTimestamp now message.timestamp⟩] } rfl hsv
    simp only at qtp
    obtain ⟨hq1, hq2, hq3, hq4, hq5, hq6, hq7⟩ := qtp
    simp only [eq_self_iff_true, if_true, List.nil_append]
    exact ⟨by rw [hq6, hq1], hq2, hq3, hq4, hq5, hq7⟩

/-- C2 (amended): while the store is connected (starting from an empty marker
queue, free lock and maxBatchSize at least 2), N addMessage calls produce
exactly N durable writes, one forced flush per call, and the last write carries
the final buffer state; the debounce window coalesces nothing because
addMessage forces an immediate processBatch. -/
theorem claim_C2 {α : Type*} [LinearOrder α] (relScore : Message → String → α) (saveOk : Bool)
    (now : Nat) (batch : List (IncomingMessage × String)) (s : MemState)
    (hp : s.pendingOperations = []) (hsv : s.isSaving = false) (hmb : 2 ≤ s.maxBatchSize) :
    (addMessages relScore saveOk now batch s).2.length = batch.length ∧
    (batch ≠ [] → (addMessages relScore saveOk now batch s).2.getLast? =
      some ⟨s.sessionId, (addMessages relScore saveOk now batch s).1.messages⟩) := by
  induction batch generalizing s with
  | nil => simp [addMessages]
  | cons hd rest ih =>
    obtain ⟨msg, ctx⟩ := hd
    obtain ⟨ha1, ha2, ha3, ha4, ha5, ha6⟩ :=
      addMessage_connected_step relScore saveOk now msg ctx s hp hsv hmb
    have hmb2 : 2 ≤ (addMessage relScore saveOk true now msg ctx s).1.maxBatchSize := by
      rw [ha5]
      exact hmb
    obtain ⟨ih1, ih2⟩ := ih (addMessage relScore saveOk true now msg ctx s).1 ha2 ha3 hmb2
    simp only [addMessages]
    constructor
    · rw [List.length_append, ih1, ha1]
      simp only [List.length_cons, List.length_nil]
      omega
    · intro _
      by_cases hrest : rest = []
      · subst hrest
        simp only [addMessages]
        rw [List.append_nil, ha1]
        simp
      · have hlen2 : (addMessages relScore saveOk now rest
            (addMessage relScore saveOk true now msg ctx s).1).2 ≠ [] := by
          intro hcon
          rw [hcon] at ih1
          simp at ih1
          exact hrest (List.length_eq_zero.mp ih1.symm)
        rw [List.getLast?_append, ih2 hrest, ha4]
        rfl

/-- C2 counterexample: two addMessage calls inside one debounce window while
connected produce two durable writes, not the single coalesced write the claim
states. -/
theorem claim_C2_counterexample :
    (addMessages constScore true 5 [(incomingA, sampleContext), (incomingB, sampleContext)]
      stateConnected).2.length = 2 ∧
    (addMessages constScore true 5 [(incomingA, sampleContext), (incomingB, sampleContext)]
      stateConnected).2.length ≠ 1 := by
  constructor
  · decide
  · decide

/-- C2 witness: the amended theorem applied at a concrete connected state and a
two-message batch. -/
theorem claim_C2_witness :
    (addMessages constScore true 5 [(incomingA, sampleContext), (incomingB, sampleContext)]
      stateConnected).2.length =
      [(incomingA, sampleContext), (incomingB, sampleContext)].length :=
  (claim_C2 constScore true 5 [(incomingA, sampleContext), (incomingB, sampleContext)]
    stateConnected rfl rfl (by decide)).1

/-- C8: setSessionId is a no-op for the current session id; for a different id
it first flushes the pending markers (the flush write carries the old session id
and the pre-clear buffer), then clears the buffer, re-checks connectivity, and
loads the stored snapshot of the new session when connected, leaving the buffer
empty otherwise (also when the stored document is missing or malformed). -/
theorem claim_C8 (store : String → StoreDoc) (saveOk connNow : Bool) (newSessionId : String)
    (s : MemState) :
    (s.sessionId = newSessionId → setSessionId store saveOk connNow newSessionId s = (s, [])) ∧
    (s.sessionId ≠ newSessionId → s.isSaving = false →
      (setSessionId store saveOk connNow newSessionId s).1.sessionId = newSessionId ∧
      (setSessionId store saveOk connNow newSessionId s).1.messages =
        (if connNow = true then
          (match store newSessionId with
            | StoreDoc.snapshot msgs => msgs
            | StoreDoc.absent => []
            | StoreDoc.malformed => [])
          else []) ∧
      (setSessionId store saveOk connNow newSessionId s).2 =
        (if s.pendingOperations ≠ [] ∧ s.isMongoConnected = true
          then [⟨s.sessionId, s.messages⟩] else []) ∧
      (setSessionId store saveOk connNow newSessionId s).1.pendingOperations = [] ∧
      (setSessionId store saveOk connNow newSessionId s).1.isMongoConnected = connNow) := by
  constructor
  · intro h
    rw [setSessionId, if_pos h]
  · intro hne hsv
    obtain ⟨msB, mmc, msgs, sid, pend, timer, bsd, mbs, sav, conn⟩ := s
    simp only at hne hsv ⊢
    subst hsv
    rcases hstore : store newSessionId with _ | _ | snap <;>
      cases connNow <;>
      by_cases hp : pend = [] <;>
      simp_all [setSessionId, flushPendingOperations, processBatch, saveToMongoDB,
        loadFromMongoDB]

theorem greedyPack_spec (maxContextSize : Nat) :
    ∀ (l : List Message) (acc : Nat), acc ≤ maxContextSize →
      ∃ k, greedyPack maxContextSize acc l = l.take k ∧
        acc + ((l.take k).map messageContextBytes).sum ≤ maxContextSize ∧
        (k = l.length ∨
          maxContextSize < acc + ((l.take (k + 1)).map messageContextBytes).sum)
  | [], acc, hacc => ⟨0, by simp [greedyPack], by simpa using hacc, Or.inl rfl⟩
  | m :: rest, acc, hacc => by
    by_cases hfit : acc + messageContextBytes m ≤ maxContextSize
    · obtain ⟨k, hk1, hk2, hk3⟩ :=
        greedyPack_spec maxContextSize rest (acc + messageContextBytes m) hfit
      refine ⟨k + 1, ?_, ?_, ?_⟩
      · simp only [greedyPack, if_pos hfit, hk1, List.take_succ_cons]
      · rw [List.take_succ_cons, List.map_cons, List.sum_cons]
        omega
      · rcases hk3 with h | h
        · exact Or.inl (by simp [h])
        · right
          rw [List.take_succ_cons, List.map_cons, List.sum_cons]
          omega
    · refine ⟨0, ?_, by simpa using hacc, Or.inr ?_⟩
      · simp only [greedyPack, if_neg hfit, List.take_zero]
      · rw [List.take_succ_cons]
        simp only [List.take_zero, List.map_cons, List.map_nil, List.sum_cons, List.sum_nil]
        omega

theorem prefix_sum_le (l : List Message) (j : Nat) :
    ((l.take j).map messageContextBytes).sum ≤ (l.map messageContextBytes).sum := by
  conv_rhs => rw [← List.take_append_drop j l]
  rw [List.map_append, List.sum_append]
  omega

theorem sortByRelevanceDesc_perm {α : Type*} [LinearOrder α] (relScore : Message → String → α)
    (currentQuery : String) (messages : List Message) :
    List.Perm (sortByRelevanceDesc relScore currentQuery messages) messages := by
  rw [sortByRelevanceDesc]
  have h1 := List.perm_insertionSort (fun a b : Message × α => b.2 ≤ a.2)
    (messages.map (fun m => (m, relScore m currentQuery)))
  have h2 := h1.map Prod.fst
  rw [List.map_map] at h2
  have h3 : (Prod.fst ∘ fun m : Message => (m, relScore m currentQuery)) = id := rfl
  rw [h3, List.map_id] at h2
  exact h2

theorem sortByRelevanceDesc_sorted {α : Type*} [LinearOrder α] (relScore : Message → String → α)
    (currentQuery : String) (messages : List Message) :
    List.Sorted (fun m1 m2 : Message => relScore m2 currentQuery ≤ relScore m1 currentQuery)
      (sortByRelevanceDesc relScore currentQuery messages) := by
  haveI ht : IsTotal (Message × α) (fun a b => b.2 ≤ a.2) := ⟨fun a b => le_total b.2 a.2⟩
  haveI htr : IsTrans (Message × α) (fun a b => b.2 ≤ a.2) :=
    ⟨fun _ _ _ h1 h2 => le_trans h2 h1⟩
  have hs := List.sorted_insertionSort (fun a b : Message × α => b.2 ≤ a.2)
    (messages.map (fun m => (m, relScore m currentQuery)))
  have hinv : ∀ x ∈ (messages.map (fun m => (m, relScore m currentQuery))).insertionSort
      (fun a b : Message × α => b.2 ≤ a.2), x.2 = relScore x.1 currentQuery := by
    intro x hx
    have hx2 : x ∈ messages.map (fun m => (m, relScore m currentQuery)) :=
      (List.perm_insertionSort _ _).mem_iff.mp hx
    rw [List.mem_map] at hx2
    obtain ⟨m, hm, hmx⟩ := hx2
    rw [← hmx]
  rw [sortByRelevanceDesc, List.Sorted, List.pairwise_map]
  exact List.Pairwise.imp_of_mem
    (fun ha hb hr => by rw [← hinv _ ha, ← hinv _ hb]; exact hr) hs

/-- C6: getRelevantContext returns a prefix of the buffer sorted most relevant
first, greedily packed so that the total byte size never exceeds the budget,
stopping at the first message that would overflow it; the sorted sequence is a
permutation of the buffer, and when the whole buffer fits in the budget the
call returns all messages sorted by relevance. -/
theorem claim_C6 {α : Type*} [LinearOrder α] (relScore : Message → String → α)
    (currentQuery : String) (maxContextSize : Nat) (s : MemState) :
    (((getRelevantContext relScore currentQuery maxContextSize s).2.map
      messageContextBytes).sum ≤ maxContextSize) ∧
    (∃ k, (getRelevantContext relScore currentQuery maxContextSize s).2 =
        (sortByRelevanceDesc relScore currentQuery s.messages).take k ∧
      (k = s.messages.length ∨ maxContextSize <
        (((sortByRelevanceDesc relScore currentQuery s.messages).take (k + 1)).map
          messageContextBytes).sum)) ∧
    List.Sorted (fun m1 m2 => relScore m2 currentQuery ≤ relScore m1 currentQuery)
      (sortByRelevanceDesc relScore currentQuery s.messages) ∧
    List.Perm (sortByRelevanceDesc relScore currentQuery s.messages) s.messages ∧
    ((s.messages.map messageContextBytes).sum ≤ maxContextSize →
      (getRelevantContext relScore currentQuery maxContextSize s).2 =
        sortByRelevanceDesc relScore currentQuery s.messages) := by
  have hperm := sortByRelevanceDesc_perm relScore currentQuery s.messages
  have hsorted := sortByRelevanceDesc_sorted relScore currentQuery s.messages
  rw [getRelevantContext]
  split
  · rename_i hlen
    have hnil : s.messages = [] := List.length_eq_zero.mp hlen
    have hsortnil : sortByRelevanceDesc relScore currentQuery s.messages = [] := by
      rw [hnil]
      rfl
    exact ⟨by simp, ⟨0, by simp, Or.inl hlen.symm⟩, hsorted, hperm,
      fun _ => hsortnil.symm⟩
  · rename_i hlen
    obtain ⟨k, hk1, hk2, hk3⟩ := greedyPack_spec maxContextSize
      (sortByRelevanceDesc relScore currentQuery s.messages) 0 (Nat.zero_le _)
    simp only [Nat.zero_add] at hk2 hk3
    refine ⟨?_, ⟨k, hk1, ?_⟩, hsorted, hperm, ?_⟩
    · rw [hk1]
      exact hk2
    · rcases hk3 with h | h
      · exact Or.inl (by rw [h, hperm.length_eq])
      · exact Or.inr h
    · intro hsum
      have hsum2 : ((sortByRelevanceDesc relScore currentQuery s.messages).map
          messageContextBytes).sum ≤ maxContextSize := by
        rw [(hperm.map messageContextBytes).sum_eq]
        exact hsum
      rcases hk3 with h | h
      · rw [hk1]
        have hk : k = (sortByRelevanceDesc relScore currentQuery s.messages).length := by
          rw [h, hperm.length_eq]
        rw [hk]
        exact List.take_length _
      · exfalso
        have hle := prefix_sum_le (sortByRelevanceDesc relScore currentQuery s.messages) (k + 1)
        omega

/-- C8 witness: the session-switch theorem applied at a concrete state with one
pending marker, switching to a second session whose snapshot the store holds. -/
theorem claim_C8_witness :
    (setSessionId sampleStore true true sessionB stateOneMarker).1.sessionId = sessionB ∧
    (setSessionId sampleStore true true sessionB stateOneMarker).1.pendingOperations = [] :=
  ⟨((claim_C8 sampleStore true true sessionB stateOneMarker).2 (by decide) rfl).1,
    ((claim_C8 sampleStore true true sessionB stateOneMarker).2 (by decide) rfl).2.2.2.1⟩


end Agent284
